import Mathlib

/-!
Verification of the image-search aggregation helper of the backend
(`search_commons_images` in `main.py`, together with the request it builds
and the response shape it consumes).

The external media-search service is modelled as an abstract function from
the built request parameters to either a failure (any exception raised while
fetching or parsing: network error, timeout, malformed payload) or a parsed
`query.pages` mapping, given as a list of page-id/page pairs in the dict's
iteration order.  Machine integers of the source are modelled as `Int`.
The Python insertion-ordered `dict` keyed by `int(pid)` is modelled as an
association list: assignment to an existing key overwrites the value in
place (keeping the key's position), assignment to a fresh key appends.
Python's `list[:limit]` slice, whose bound is a possibly negative `int`,
is modelled by `pySliceTo`.
-/

set_option autoImplicit false

/-- A parsed `thumbnail` JSON object: `source`, `width`, `height` are read
with `.get`, so each is optional. -/
structure Thumb where
  source : Option String
  width : Option Int
  height : Option Int
deriving DecidableEq

/-- A parsed page object from `query.pages`: `title` and `fullurl` are read
with `.get`; `thumbnail` is `some _` exactly when the page object contains a
`"thumbnail"` field. -/
structure Page where
  title : Option String
  fullurl : Option String
  thumbnail : Option Thumb
deriving DecidableEq

/-- The dictionary built for each kept page (lines 57-66 of `main.py`). -/
structure ImageResult where
  id : Int
  title : Option String
  page_url : Option String
  thumbnail : Option String
  width : Option Int
  height : Option Int
  source : String
  license : String
deriving DecidableEq

/-- The query parameters of the GET request built for one query
(lines 40-50 of `main.py`). -/
structure SearchParams where
  action : String
  format : String
  generator : String
  gsrsearch : String
  gsrlimit : Int
  prop : String
  inprop : String
  pithumbsize : Int
deriving DecidableEq

/-- The request parameters built for query `q` with the caller's `limit` and
`thumb_size`: `gsrlimit` is `min(limit, 50)`, the rest are constants. -/
def buildParams (q : String) (limit thumb_size : Int) : SearchParams :=
  { action := "query"
    format := "json"
    generator := "search"
    gsrsearch := q
    gsrlimit := min limit 50
    prop := "pageimages|info"
    inprop := "url"
    pithumbsize := thumb_size }

/-- The abstract external service: maps the built request to a failure or to
the parsed `query.pages` items. -/
abbrev Service := SearchParams → Except Unit (List (Int × Page))

/-- The `ImageResult` dictionary literal of lines 57-66: `int(pid)`, `title`,
`fullurl`, the three `thumbnail` sub-fields via `.get("thumbnail", {})`, and
two constant fields. -/
def mkImageResult (pid : Int) (page : Page) : ImageResult :=
  let thumb := page.thumbnail.getD { source := none, width := none, height := none }
  { id := pid
    title := page.title
    page_url := page.fullurl
    thumbnail := thumb.source
    width := thumb.width
    height := thumb.height
    source := "Wikimedia Commons"
    license := "See source page" }

/-- Assignment `results[k] = v` on the insertion-ordered dict: overwrite in
place if the key is present, append otherwise. -/
def dictInsert (m : List (Int × ImageResult)) (k : Int) (v : ImageResult) :
    List (Int × ImageResult) :=
  if k ∈ m.map Prod.fst then
    m.map (fun p => if p.1 = k then (k, v) else p)
  else
    m ++ [(k, v)]

/-- Lookup in the association-list model of the dict. -/
def dictLookup (m : List (Int × ImageResult)) (k : Int) : Option ImageResult :=
  match m with
  | [] => none
  | p :: rest => if p.1 = k then some p.2 else dictLookup rest k

/-- The inner loop over `pages.items()` (lines 55-66): pages with a
`thumbnail` field are assigned into the dict, the others are skipped. -/
def processPages (m : List (Int × ImageResult)) (pages : List (Int × Page)) :
    List (Int × ImageResult) :=
  pages.foldl
    (fun acc pp =>
      if pp.2.thumbnail.isSome then dictInsert acc pp.1 (mkImageResult pp.1 pp.2)
      else acc)
    m

/-- One iteration of the query loop, instrumented with the trace of external
requests: the request is built and issued exactly once; on failure the
`except Exception: continue` of lines 67-69 leaves the dict unchanged. -/
def runStep (svc : Service) (limit thumb_size : Int)
    (acc : List SearchParams × List (Int × ImageResult)) (q : String) :
    List SearchParams × List (Int × ImageResult) :=
  let p := buildParams q limit thumb_size
  match svc p with
  | .ok pages => (acc.1 ++ [p], processPages acc.2 pages)
  | .error _ => (acc.1 ++ [p], acc.2)

/-- Python's `l[:n]` for an `int` bound `n`: first `n` elements when
`0 ≤ n`, all but the last `-n` elements when `n < 0`. -/
def pySliceTo {α : Type} (l : List α) (n : Int) : List α :=
  if 0 ≤ n then l.take n.toNat else l.take (l.length - (-n).toNat)

/-- `search_commons_images` (lines 35-72 of `main.py`), instrumented: returns
the trace of issued requests together with the returned list
`list(results.values())[:limit]`. -/
def search_run (svc : Service) (queries : List String) (limit thumb_size : Int) :
    List SearchParams × List ImageResult :=
  let r := queries.foldl (runStep svc limit thumb_size) ([], [])
  (r.1, pySliceTo (r.2.map Prod.snd) limit)

/-- The value returned by `search_commons_images`. -/
def search_commons_images (svc : Service) (queries : List String)
    (limit thumb_size : Int) : List ImageResult :=
  (search_run svc queries limit thumb_size).2

/-- The sequence of external requests issued by `search_commons_images`. -/
def externalCalls (svc : Service) (queries : List String)
    (limit thumb_size : Int) : List SearchParams :=
  (search_run svc queries limit thumb_size).1

/-! ### Auxiliary views of the computation, used to state and prove properties -/

/-- One iteration of the query loop, dict component only. -/
def mapStep (svc : Service) (limit thumb_size : Int)
    (m : List (Int × ImageResult)) (q : String) : List (Int × ImageResult) :=
  match svc (buildParams q limit thumb_size) with
  | .ok pages => processPages m pages
  | .error _ => m

/-- The dict built by the query loop, without the request trace. -/
def aggregateMap (svc : Service) (queries : List String) (limit thumb_size : Int) :
    List (Int × ImageResult) :=
  queries.foldl (mapStep svc limit thumb_size) []

/-- The pages of a response that carry a `thumbnail` field, in response order. -/
def thumbPages (pages : List (Int × Page)) : List (Int × Page) :=
  pages.filter (fun pp => pp.2.thumbnail.isSome)

/-- One iteration of the query loop, viewed as the stream of thumbnailed
pages it contributes: a failed query contributes nothing. -/
def streamStep (svc : Service) (limit thumb_size : Int)
    (s : List (Int × Page)) (q : String) : List (Int × Page) :=
  match svc (buildParams q limit thumb_size) with
  | .ok pages => s ++ thumbPages pages
  | .error _ => s

/-- The stream of all thumbnailed pages encountered over the whole run, in
processing order. -/
def streamOf (svc : Service) (queries : List String) (limit thumb_size : Int) :
    List (Int × Page) :=
  queries.foldl (streamStep svc limit thumb_size) []

/-- Folding dict assignment over a stream of pages. -/
def dictFold (m : List (Int × ImageResult)) (s : List (Int × Page)) :
    List (Int × ImageResult) :=
  s.foldl (fun acc pp => dictInsert acc pp.1 (mkImageResult pp.1 pp.2)) m

/-- The page attached to the last occurrence of identifier `k` in a stream. -/
def lastOcc (k : Int) : List (Int × Page) → Option Page
  | [] => none
  | pp :: s =>
    match lastOcc k s with
    | some pg => some pg
    | none => if pp.1 = k then some pp.2 else none

/-- First-discovery-order deduplication of a list of identifiers: a
repeated identifier keeps its earliest position. -/
def insertionOrder (l : List Int) : List Int :=
  l.foldl (fun ks k => if k ∈ ks then ks else ks ++ [k]) []

/-! ### Concrete pages and services, used in witnesses and counterexamples -/

/-- A thumbnailed page as query `"A"` reports page 1. -/
def pageA1 : Page :=
  { title := some "Cathedral at night, view A"
    fullurl := some "https://example.org/wiki/A1"
    thumbnail := some { source := some "https://img.example.org/A1.jpg"
                        width := some 800, height := some 600 } }

/-- The same page 1 as query `"B"` reports it, with different attributes. -/
def pageB1 : Page :=
  { title := some "Cathedral at night, view B"
    fullurl := some "https://example.org/wiki/B1"
    thumbnail := some { source := some "https://img.example.org/B1.jpg"
                        width := some 1024, height := some 768 } }

/-- A second thumbnailed page, reported only by query `"B"`. -/
def pageB2 : Page :=
  { title := some "Embankment in winter"
    fullurl := some "https://example.org/wiki/B2"
    thumbnail := some { source := some "https://img.example.org/B2.jpg"
                        width := some 640, height := some 480 } }

/-- A page without a `thumbnail` field. -/
def pageNoThumb : Page :=
  { title := some "Uncropped scan"
    fullurl := some "https://example.org/wiki/NT"
    thumbnail := none }

/-- Service for the duplicated-identifier scenario: query `"A"` yields page 1,
query `"B"` yields page 1 (with other attributes) and page 2. -/
def svcAB : Service := fun p =>
  if p.gsrsearch = "A" then .ok [(1, pageA1)]
  else if p.gsrsearch = "B" then .ok [(1, pageB1), (2, pageB2)]
  else .error ()

/-- Service for the per-query-failure scenario: query `"A"` times out,
query `"B"` succeeds with one thumbnailed page. -/
def svcTimeoutA : Service := fun p =>
  if p.gsrsearch = "A" then .error ()
  else if p.gsrsearch = "B" then .ok [(3, pageB2)]
  else .error ()

/-- Service on which every call fails. -/
def svcFailAll : Service := fun _ => .error ()

/-- Service where query `"A"` yields two thumbnailed pages and one page
without a thumbnail. -/
def svcTwo : Service := fun p =>
  if p.gsrsearch = "A" then .ok [(1, pageA1), (9, pageNoThumb), (2, pageB2)]
  else .error ()

/-! ### Decomposition of the instrumented run -/

theorem foldl_runStep_decompose (svc : Service) (limit thumb_size : Int)
    (qs : List String) :
    ∀ (c : List SearchParams) (m : List (Int × ImageResult)),
      qs.foldl (runStep svc limit thumb_size) (c, m)
        = (c ++ qs.map (fun q => buildParams q limit thumb_size),
           qs.foldl (mapStep svc limit thumb_size) m) := by
  induction qs with
  | nil => intro c m; simp
  | cons q qs ih =>
    intro c m
    simp only [List.foldl_cons, List.map_cons]
    have hstep : runStep svc limit thumb_size (c, m) q
        = (c ++ [buildParams q limit thumb_size], mapStep svc limit thumb_size m q) := by
      cases hsvc : svc (buildParams q limit thumb_size) <;>
        simp [runStep, mapStep, hsvc]
    rw [hstep, ih]
    simp

theorem search_run_eq (svc : Service) (qs : List String) (l t : Int) :
    search_run svc qs l t
      = (qs.map (fun q => buildParams q l t),
         pySliceTo ((aggregateMap svc qs l t).map Prod.snd) l) := by
  unfold search_run aggregateMap
  rw [foldl_runStep_decompose]
  simp

theorem externalCalls_eq (svc : Service) (qs : List String) (l t : Int) :
    externalCalls svc qs l t = qs.map (fun q => buildParams q l t) := by
  unfold externalCalls
  rw [search_run_eq]

theorem search_eq_slice (svc : Service) (qs : List String) (l t : Int) :
    search_commons_images svc qs l t
      = pySliceTo ((aggregateMap svc qs l t).map Prod.snd) l := by
  unfold search_commons_images
  rw [search_run_eq]

/-! ### Association-list dictionary lemmas -/

theorem dictInsert_keys (m : List (Int × ImageResult)) (k : Int) (v : ImageResult) :
    (dictInsert m k v).map Prod.fst
      = if k ∈ m.map Prod.fst then m.map Prod.fst else m.map Prod.fst ++ [k] := by
  unfold dictInsert
  by_cases h : k ∈ m.map Prod.fst
  · rw [if_pos h, if_pos h, List.map_map]
    refine List.map_congr_left ?_
    intro p _
    by_cases hpk : p.1 = k
    · simp [Function.comp, hpk]
    · simp [Function.comp, hpk]
  · rw [if_neg h, if_neg h]
    simp

theorem dictLookup_nil (k : Int) : dictLookup [] k = none := rfl

theorem dictLookup_cons (p : Int × ImageResult) (m : List (Int × ImageResult))
    (k : Int) :
    dictLookup (p :: m) k = if p.1 = k then some p.2 else dictLookup m k := rfl

theorem dictLookup_none_iff (m : List (Int × ImageResult)) (k : Int) :
    dictLookup m k = none ↔ k ∉ m.map Prod.fst := by
  induction m with
  | nil => simp [dictLookup_nil]
  | cons p m ih =>
    rw [dictLookup_cons]
    by_cases hp : p.1 = k
    · simp [hp]
    · rw [if_neg hp, ih]
      simp [Ne.symm hp]

theorem dictLookup_map_overwrite (k k1 : Int) (v : ImageResult)
    (m : List (Int × ImageResult)) :
    dictLookup (m.map (fun p => if p.1 = k then (k, v) else p)) k1
      = if k1 = k then (dictLookup m k).map (fun _ => v) else dictLookup m k1 := by
  induction m with
  | nil =>
    simp only [List.map_nil, dictLookup_nil, Option.map_none]
    split <;> rfl
  | cons p m ih =>
    simp only [List.map_cons, dictLookup_cons, ih]
    by_cases hp : p.1 = k <;> by_cases hk : k1 = k
    · simp [hp, hk]
    · simp [hp, hk, Ne.symm hk]
    · have hp1 : p.1 ≠ k1 := by rw [hk]; exact hp
      simp [hp, hk, hp1]
    · by_cases hp1 : p.1 = k1 <;> simp [hp, hk, hp1]

theorem dictLookup_append (m1 m2 : List (Int × ImageResult)) (k : Int) :
    dictLookup (m1 ++ m2) k = (dictLookup m1 k).or (dictLookup m2 k) := by
  induction m1 with
  | nil => simp [dictLookup_nil]
  | cons p m1 ih =>
    simp only [List.cons_append, dictLookup_cons, ih]
    by_cases hp : p.1 = k <;> simp [hp]

theorem dictLookup_dictInsert (m : List (Int × ImageResult)) (k k1 : Int)
    (v : ImageResult) :
    dictLookup (dictInsert m k v) k1 = if k1 = k then some v else dictLookup m k1 := by
  unfold dictInsert
  by_cases h : k ∈ m.map Prod.fst
  · rw [if_pos h, dictLookup_map_overwrite]
    by_cases hk : k1 = k
    · rcases Option.ne_none_iff_exists.mp
        (fun hc => (dictLookup_none_iff m k).mp hc h) with ⟨w, hw⟩
      simp [hk, ← hw]
    · simp [hk]
  · rw [if_neg h, dictLookup_append]
    by_cases hk : k1 = k
    · have h0 : dictLookup m k1 = none := by
        rw [hk]; exact (dictLookup_none_iff m k).mpr h
      simp [h0, dictLookup_cons, dictLookup_nil, hk.symm]
    · simp [dictLookup_cons, dictLookup_nil, hk, Ne.symm hk]

/-! ### The dict built by the loop is a fold of assignments over the
thumbnailed-page stream -/

theorem processPages_eq_dictFold (pages : List (Int × Page)) :
    ∀ m, processPages m pages = dictFold m (thumbPages pages) := by
  induction pages with
  | nil => intro m; rfl
  | cons a pages ih =>
    intro m
    simp only [processPages, thumbPages, dictFold, List.foldl_cons, List.filter_cons] at *
    cases h : a.2.thumbnail.isSome <;> simp [h, ih]

theorem streamStep_acc (svc : Service) (l t : Int) (qs : List String) :
    ∀ s, qs.foldl (streamStep svc l t) s = s ++ qs.foldl (streamStep svc l t) [] := by
  induction qs with
  | nil => intro s; simp
  | cons q qs ih =>
    intro s
    simp only [List.foldl_cons]
    rw [ih (streamStep svc l t s q), ih (streamStep svc l t [] q)]
    unfold streamStep
    cases svc (buildParams q l t) <;> simp

theorem dictFold_append (m : List (Int × ImageResult)) (s1 s2 : List (Int × Page)) :
    dictFold m (s1 ++ s2) = dictFold (dictFold m s1) s2 :=
  List.foldl_append _ _ _ _

theorem foldl_mapStep_eq_dictFold (svc : Service) (l t : Int) (qs : List String) :
    ∀ m, qs.foldl (mapStep svc l t) m = dictFold m (qs.foldl (streamStep svc l t) []) := by
  induction qs with
  | nil => intro m; rfl
  | cons q qs ih =>
    intro m
    simp only [List.foldl_cons]
    rw [ih, streamStep_acc svc l t qs (streamStep svc l t [] q), dictFold_append]
    have hstep : mapStep svc l t m q = dictFold m (streamStep svc l t [] q) := by
      unfold mapStep streamStep
      cases hsvc : svc (buildParams q l t)
      · rfl
      · simp only [List.nil_append]
        exact processPages_eq_dictFold _ m
    rw [hstep]

theorem aggregateMap_eq_dictFold (svc : Service) (qs : List String) (l t : Int) :
    aggregateMap svc qs l t = dictFold [] (streamOf svc qs l t) :=
  foldl_mapStep_eq_dictFold svc l t qs []

/-! ### Properties of the assignment fold -/

theorem dictFold_keys (s : List (Int × Page)) :
    ∀ m : List (Int × ImageResult),
      (dictFold m s).map Prod.fst
        = (s.map Prod.fst).foldl (fun ks k => if k ∈ ks then ks else ks ++ [k])
            (m.map Prod.fst) := by
  induction s with
  | nil => intro m; rfl
  | cons a s ih =>
    intro m
    simp only [dictFold, List.foldl_cons, List.map_cons] at *
    rw [ih, dictInsert_keys]

theorem dictFold_lookup (s : List (Int × Page)) :
    ∀ (m : List (Int × ImageResult)) (k : Int),
      dictLookup (dictFold m s) k
        = match lastOcc k s with
          | some pg => some (mkImageResult k pg)
          | none => dictLookup m k := by
  induction s with
  | nil => intro m k; rfl
  | cons a s ih =>
    intro m k
    simp only [dictFold, List.foldl_cons] at *
    rw [ih]
    cases hlo : lastOcc k s with
    | some pg => simp [lastOcc, hlo]
    | none =>
      rw [dictLookup_dictInsert]
      by_cases hk : k = a.1
      · subst hk
        simp [lastOcc, hlo]
      · have hak : a.1 ≠ k := fun hc => hk hc.symm
        simp [lastOcc, hlo, hk, hak]

theorem mem_dictInsert (p : Int × ImageResult) (m : List (Int × ImageResult))
    (k : Int) (v : ImageResult) :
    p ∈ dictInsert m k v → p ∈ m ∨ p = (k, v) := by
  unfold dictInsert
  split
  · intro hp
    rcases List.mem_map.mp hp with ⟨q, hq, hfq⟩
    by_cases hqk : q.1 = k
    · right; rw [← hfq]; simp [hqk]
    · left; rw [← hfq]; simp only [if_neg hqk]; exact hq
  · intro hp
    rcases List.mem_append.mp hp with h1 | h1
    · exact Or.inl h1
    · exact Or.inr (List.mem_singleton.mp h1)

theorem mem_dictFold (s : List (Int × Page)) :
    ∀ (m : List (Int × ImageResult)) (p : Int × ImageResult),
      p ∈ dictFold m s → p ∈ m ∨ ∃ a ∈ s, p = (a.1, mkImageResult a.1 a.2) := by
  induction s with
  | nil => intro m p hp; exact Or.inl hp
  | cons a s ih =>
    intro m p hp
    simp only [dictFold, List.foldl_cons] at hp
    rcases ih _ p hp with h1 | ⟨b, hb, hpb⟩
    · rcases mem_dictInsert p m a.1 (mkImageResult a.1 a.2) h1 with h2 | h2
      · exact Or.inl h2
      · exact Or.inr ⟨a, List.mem_cons_self a s, h2⟩
    · exact Or.inr ⟨b, List.mem_cons_of_mem a hb, hpb⟩

theorem dictFold_keys_nodup (s : List (Int × Page)) :
    ∀ m : List (Int × ImageResult),
      ((m.map Prod.fst).Nodup) → ((dictFold m s).map Prod.fst).Nodup := by
  induction s with
  | nil => intro m h; exact h
  | cons a s ih =>
    intro m h
    simp only [dictFold, List.foldl_cons] at *
    refine ih _ ?_
    rw [dictInsert_keys]
    by_cases hmem : a.1 ∈ m.map Prod.fst
    · rw [if_pos hmem]; exact h
    · rw [if_neg hmem]
      simp [List.nodup_append, h, hmem]

theorem id_field_eq_key (svc : Service) (qs : List String) (l t : Int) :
    ∀ p ∈ aggregateMap svc qs l t, (Prod.snd p).id = p.1 := by
  intro p hp
  rw [aggregateMap_eq_dictFold] at hp
  rcases mem_dictFold _ _ p hp with h1 | ⟨a, _, hpa⟩
  · exact absurd h1 (List.not_mem_nil p)
  · rw [hpa]; simp [mkImageResult]

theorem pySliceTo_sublist {α : Type} (l : List α) (n : Int) :
    (pySliceTo l n).Sublist l := by
  unfold pySliceTo
  split
  · exact List.take_sublist _ _
  · exact List.take_sublist _ _

theorem pySliceTo_nil {α : Type} (n : Int) : pySliceTo ([] : List α) n = [] := by
  unfold pySliceTo
  split <;> simp

theorem dictLookup_of_mem (m : List (Int × ImageResult)) :
    (m.map Prod.fst).Nodup → ∀ (k : Int) (v : ImageResult),
      (k, v) ∈ m → dictLookup m k = some v := by
  induction m with
  | nil => intro _ k v hm; exact absurd hm (List.not_mem_nil _)
  | cons p m ih =>
    intro hnd k v hm
    rw [dictLookup_cons]
    rcases List.mem_cons.mp hm with h1 | h1
    · rw [← h1]
      simp
    · have hk : k ∈ m.map Prod.fst := List.mem_map.mpr ⟨(k, v), h1, rfl⟩
      have hp1 : p.1 ≠ k := by
        intro hc
        exact (List.nodup_cons.mp (by simpa using hnd)).1 (hc ▸ hk)
      rw [if_neg hp1]
      exact ih (List.nodup_cons.mp (by simpa using hnd)).2 k v h1

theorem mem_foldl_streamStep (svc : Service) (l t : Int) (qs : List String) :
    ∀ (s : List (Int × Page)) (kp : Int × Page),
      kp ∈ qs.foldl (streamStep svc l t) s →
        kp ∈ s ∨ ∃ q pages, q ∈ qs ∧ svc (buildParams q l t) = .ok pages ∧
          kp ∈ pages ∧ kp.2.thumbnail.isSome = true := by
  induction qs with
  | nil => intro s kp h; exact Or.inl h
  | cons q qs ih =>
    intro s kp h
    simp only [List.foldl_cons] at h
    rcases ih _ kp h with h1 | ⟨q1, pages, hq1, hsvc, hmem, hthumb⟩
    · unfold streamStep at h1
      revert h1
      cases hsvc : svc (buildParams q l t) with
      | error e => exact fun h1 => Or.inl h1
      | ok pages =>
        intro h1
        rcases List.mem_append.mp h1 with h2 | h2
        · exact Or.inl h2
        · rcases List.mem_filter.mp h2 with ⟨h3, h4⟩
          exact Or.inr ⟨q, pages, List.mem_cons_self q qs, hsvc, h3, h4⟩
    · exact Or.inr ⟨q1, pages, List.mem_cons_of_mem q hq1, hsvc, hmem, hthumb⟩

theorem mem_streamOf (svc : Service) (qs : List String) (l t : Int)
    (kp : Int × Page) (h : kp ∈ streamOf svc qs l t) :
    ∃ q pages, q ∈ qs ∧ svc (buildParams q l t) = .ok pages ∧
      kp ∈ pages ∧ kp.2.thumbnail.isSome = true := by
  rcases mem_foldl_streamStep svc l t qs [] kp h with h1 | h1
  · exact absurd h1 (List.not_mem_nil kp)
  · exact h1

theorem foldl_mapStep_fail (svc : Service) (l t : Int) (qs : List String) :
    ∀ m, (∀ q ∈ qs, svc (buildParams q l t) = .error ()) →
      qs.foldl (mapStep svc l t) m = m := by
  induction qs with
  | nil => intro m _; rfl
  | cons q qs ih =>
    intro m h
    simp only [List.foldl_cons]
    have hstep : mapStep svc l t m q = m := by
      unfold mapStep
      rw [h q (List.mem_cons_self q qs)]
    rw [hstep]
    exact ih m (fun q1 hq1 => h q1 (List.mem_cons_of_mem q hq1))

/-! ### Claim theorems -/

/-- Claim C1, counterexample: on the spec's own scenario — queries
`["A", "B"]`, where `"A"` returns page 1 and `"B"` returns page 1 (with
different attributes) and page 2 — the entry for identifier 1 carries the
attributes of query `"B"`'s response, not query `"A"`'s: dict assignment
overwrites, so deduplication is last-write-wins for attributes, refuting
first-write-wins. -/
theorem first_write_wins_counterexample :
    search_commons_images svcAB ["A", "B"] 30 800
        = [mkImageResult 1 pageB1, mkImageResult 2 pageB2]
      ∧ mkImageResult 1 pageB1 ≠ mkImageResult 1 pageA1 := by
  constructor
  · decide
  · decide

/-- Claim C1, amended: every returned `ImageResult` carries the attributes of
the last thumbnailed occurrence of its identifier in processing order
(last-write-wins); later occurrences of an identifier add no new entry. -/
theorem id_attributes_from_last_occurrence (svc : Service) (qs : List String)
    (l t : Int) (r : ImageResult) (hr : r ∈ search_commons_images svc qs l t) :
    ∃ page, lastOcc r.id (streamOf svc qs l t) = some page
      ∧ r = mkImageResult r.id page := by
  rw [search_eq_slice] at hr
  have hr2 : r ∈ (aggregateMap svc qs l t).map Prod.snd :=
    (pySliceTo_sublist _ _).subset hr
  rcases List.mem_map.mp hr2 with ⟨p, hp, hpr⟩
  have hid : (Prod.snd p).id = p.1 := id_field_eq_key svc qs l t p hp
  have hnd : ((aggregateMap svc qs l t).map Prod.fst).Nodup := by
    rw [aggregateMap_eq_dictFold]
    exact dictFold_keys_nodup _ [] (by simp)
  have hlk : dictLookup (aggregateMap svc qs l t) p.1 = some p.2 :=
    dictLookup_of_mem _ hnd p.1 p.2 hp
  rw [aggregateMap_eq_dictFold, dictFold_lookup] at hlk
  cases hlo : lastOcc p.1 (streamOf svc qs l t) with
  | none =>
    rw [hlo] at hlk
    simp [dictLookup_nil] at hlk
  | some pg =>
    rw [hlo] at hlk
    simp only [Option.some.injEq] at hlk
    refine ⟨pg, ?_, ?_⟩
    · rw [← hpr, hid]
      exact hlo
    · rw [← hpr, hid]
      exact hlk.symm

/-- Claim C1, witness: in the duplicated-identifier scenario the entry for
identifier 1 is the one written by the last occurrence. -/
theorem id_attributes_from_last_occurrence_witness :
    (mkImageResult 1 pageB1 ∈ search_commons_images svcAB ["A", "B"] 30 800)
    ∧ ∃ page,
        lastOcc (mkImageResult 1 pageB1).id (streamOf svcAB ["A", "B"] 30 800)
            = some page
        ∧ mkImageResult 1 pageB1 = mkImageResult (mkImageResult 1 pageB1).id page :=
  ⟨by decide,
   id_attributes_from_last_occurrence svcAB ["A", "B"] 30 800
     (mkImageResult 1 pageB1) (by decide)⟩

/-- Claim C2: when the external call fails for every query, the function
returns the empty list (and, being a total function of the modelled
exception-free semantics, raises nothing). -/
theorem all_calls_fail_returns_empty (svc : Service) (qs : List String)
    (l t : Int) (h : ∀ q ∈ qs, svc (buildParams q l t) = .error ()) :
    search_commons_images svc qs l t = [] := by
  rw [search_eq_slice]
  unfold aggregateMap
  rw [foldl_mapStep_fail svc l t qs [] h]
  exact pySliceTo_nil l

/-- Claim C2, witness: with a service on which every call fails, the two-query
run returns the empty list. -/
theorem all_calls_fail_returns_empty_witness :
    search_commons_images svcFailAll ["A", "B"] 30 800 = [] :=
  all_calls_fail_returns_empty svcFailAll ["A", "B"] 30 800 (fun _ _ => rfl)

/-- Claim C3: a query whose external call fails contributes nothing and is
skipped: the run on `qs1 ++ q :: qs2` returns exactly the run on
`qs1 ++ qs2`, so no exception surfaces and the other queries' results are
kept. -/
theorem failed_query_contribution_dropped (svc : Service)
    (qs1 qs2 : List String) (q : String) (l t : Int)
    (h : svc (buildParams q l t) = .error ()) :
    search_commons_images svc (qs1 ++ q :: qs2) l t
      = search_commons_images svc (qs1 ++ qs2) l t := by
  have hagg : aggregateMap svc (qs1 ++ q :: qs2) l t
      = aggregateMap svc (qs1 ++ qs2) l t := by
    unfold aggregateMap
    rw [List.foldl_append, List.foldl_append, List.foldl_cons]
    have hstep : mapStep svc l t (qs1.foldl (mapStep svc l t) []) q
        = qs1.foldl (mapStep svc l t) [] := by
      unfold mapStep
      rw [h]
    rw [hstep]
  rw [search_eq_slice, search_eq_slice, hagg]

/-- Claim C3, witness: query `"A"` times out and query `"B"` succeeds with one
thumbnailed page; the result equals the run on `["B"]` alone, namely one
entry. -/
theorem failed_query_contribution_dropped_witness :
    svcTimeoutA (buildParams "A" 30 800) = Except.error ()
    ∧ search_commons_images svcTimeoutA ["A", "B"] 30 800
        = search_commons_images svcTimeoutA ["B"] 30 800
    ∧ search_commons_images svcTimeoutA ["B"] 30 800 = [mkImageResult 3 pageB2] :=
  ⟨by simp [svcTimeoutA, buildParams],
   failed_query_contribution_dropped svcTimeoutA [] ["B"] "A" 30 800
     (by simp [svcTimeoutA, buildParams]),
   by decide⟩

/-- Claim C4: no two results in the returned sequence share an identifier,
for every service behaviour and every input. -/
theorem result_identifiers_nodup (svc : Service) (qs : List String) (l t : Int) :
    ((search_commons_images svc qs l t).map (fun r => r.id)).Nodup := by
  rw [search_eq_slice]
  have hsub :=
    (pySliceTo_sublist ((aggregateMap svc qs l t).map Prod.snd) l).map
      (fun r : ImageResult => r.id)
  refine List.Nodup.sublist hsub ?_
  rw [List.map_map]
  have hcongr : (aggregateMap svc qs l t).map ((fun r : ImageResult => r.id) ∘ Prod.snd)
      = (aggregateMap svc qs l t).map Prod.fst :=
    List.map_congr_left (fun p hp => id_field_eq_key svc qs l t p hp)
  rw [hcongr, aggregateMap_eq_dictFold]
  exact dictFold_keys_nodup _ [] (by simp)

/-- Claim C5: for a non-empty query list and a positive limit, the returned
sequence has length at most `limit`. -/
theorem result_length_le_limit (svc : Service) (qs : List String) (l t : Int)
    (hq : qs ≠ []) (hl : 0 < l) :
    (search_commons_images svc qs l t).length ≤ l.toNat := by
  rw [search_eq_slice]
  unfold pySliceTo
  rw [if_pos (le_of_lt hl)]
  rw [List.length_take]
  exact min_le_left _ _

/-- Claim C5, witness: one query returning two thumbnailed pages with
`limit = 1` yields at most one result. -/
theorem result_length_le_limit_witness :
    (["A"] : List String) ≠ [] ∧ (0 : Int) < 1
    ∧ (search_commons_images svcTwo ["A"] 1 800).length ≤ (1 : Int).toNat :=
  ⟨by decide, by decide,
   result_length_le_limit svcTwo ["A"] 1 800 (by decide) (by decide)⟩

/-- Claim C6: every returned `ImageResult` is built from a page, returned by
a successful call for one of the queries, whose page object contained a
`thumbnail` field. -/
theorem results_only_from_thumbnailed_pages (svc : Service) (qs : List String)
    (l t : Int) (r : ImageResult) (hr : r ∈ search_commons_images svc qs l t) :
    ∃ q pages pid page, q ∈ qs ∧ svc (buildParams q l t) = .ok pages ∧
      (pid, page) ∈ pages ∧ page.thumbnail.isSome = true
      ∧ r = mkImageResult pid page := by
  rw [search_eq_slice] at hr
  have hr2 : r ∈ (aggregateMap svc qs l t).map Prod.snd :=
    (pySliceTo_sublist _ _).subset hr
  rcases List.mem_map.mp hr2 with ⟨p, hp, hpr⟩
  rw [aggregateMap_eq_dictFold] at hp
  rcases mem_dictFold _ _ p hp with h0 | ⟨a, ha, hpa⟩
  · exact absurd h0 (List.not_mem_nil p)
  · rcases mem_streamOf svc qs l t a ha with ⟨q, pages, hq, hsvc, hmem, hthumb⟩
    refine ⟨q, pages, a.1, a.2, hq, hsvc, hmem, hthumb, ?_⟩
    rw [← hpr, hpa]

/-- Claim C6, witness: the entry for identifier 2 comes from the thumbnailed
page `(2, pageB2)` of query `"A"`'s response; the thumbnail-less page of the
same response contributes nothing. -/
theorem results_only_from_thumbnailed_pages_witness :
    (mkImageResult 2 pageB2 ∈ search_commons_images svcTwo ["A"] 30 800)
    ∧ ∃ q pages pid page, q ∈ ["A"] ∧ svcTwo (buildParams q 30 800) = .ok pages ∧
        (pid, page) ∈ pages ∧ page.thumbnail.isSome = true
        ∧ mkImageResult 2 pageB2 = mkImageResult pid page :=
  ⟨by decide,
   results_only_from_thumbnailed_pages svcTwo ["A"] 30 800
     (mkImageResult 2 pageB2) (by decide)⟩

/-- Claim C7: the trace of external requests is exactly one request per
query, built by `buildParams`, in input order — for every service behaviour,
failures included; no retries, no extra requests. -/
theorem one_request_per_query (svc : Service) (qs : List String) (l t : Int) :
    externalCalls svc qs l t = qs.map (fun q => buildParams q l t) :=
  externalCalls_eq svc qs l t

/-- Claim C8: for a positive limit, every issued request carries
`gsrlimit = min limit 50`, hence never more than 50. -/
theorem request_result_cap (svc : Service) (qs : List String) (l t : Int)
    (p : SearchParams) (hl : 0 < l) (hp : p ∈ externalCalls svc qs l t) :
    p.gsrlimit = min l 50 ∧ p.gsrlimit ≤ 50 := by
  rw [externalCalls_eq] at hp
  rcases List.mem_map.mp hp with ⟨q, _, hpq⟩
  rw [← hpq]
  exact ⟨rfl, min_le_right l 50⟩

/-- Claim C8, witness: the request built for query `"A"` with limit 30 asks
for `min 30 50` results, at most 50. -/
theorem request_result_cap_witness :
    (0 : Int) < 30
    ∧ buildParams "A" 30 800 ∈ externalCalls svcAB ["A", "B"] 30 800
    ∧ ((buildParams "A" 30 800).gsrlimit = min 30 50
        ∧ (buildParams "A" 30 800).gsrlimit ≤ 50) :=
  ⟨by decide, by decide,
   request_result_cap svcAB ["A", "B"] 30 800 (buildParams "A" 30 800)
     (by decide) (by decide)⟩

/-- Claim C9: identifiers appear in the output in first-discovery order
(re-assigning an existing key keeps its position), while the stored
attributes for each identifier come from its last occurrence; the returned
list is the dict's values in that order, truncated to the limit. -/
theorem duplicate_id_position_and_overwrite (svc : Service) (qs : List String)
    (l t : Int) :
    (aggregateMap svc qs l t).map Prod.fst
        = insertionOrder ((streamOf svc qs l t).map Prod.fst)
    ∧ (∀ k, dictLookup (aggregateMap svc qs l t) k
          = (lastOcc k (streamOf svc qs l t)).map (mkImageResult k))
    ∧ search_commons_images svc qs l t
        = pySliceTo ((aggregateMap svc qs l t).map Prod.snd) l := by
  refine ⟨?_, ?_, search_eq_slice svc qs l t⟩
  · rw [aggregateMap_eq_dictFold, dictFold_keys]
    rfl
  · intro k
    rw [aggregateMap_eq_dictFold, dictFold_lookup]
    cases hlo : lastOcc k (streamOf svc qs l t) <;> simp [hlo, dictLookup_nil]

/-- Claim C10: on the empty query list the function issues no external call,
returns the empty list, and (being total) raises nothing, for every limit
and thumbnail size. -/
theorem empty_query_list_noop (svc : Service) (l t : Int) :
    externalCalls svc [] l t = [] ∧ search_commons_images svc [] l t = [] := by
  constructor
  · rfl
  · rw [search_eq_slice]
    exact pySliceTo_nil l
